import Mathlib

/-!
Verification development for the advanced-indexing and shape-lowering core of
`imperative/python/src/tensor.cpp` (MegEngine python binding layer).

The C++ source manipulates Python objects; here the relevant value universe is
embedded shallowly:

* `NpKind` stands for a numpy dtype kind character (`'f'`, `'i'`, `'u'`, `'b'`,
  anything else), which is all `_dtype_promotion` inspects about a dtype.
* `PyVal` models the operand universe seen by `_dtype_promotion` / `_get_device`:
  tensor wrappers and symbolic vars carry a dtype kind and a device id (devices
  are modelled as opaque `Nat` ids), numpy arrays carry a dtype kind, python
  scalars are `bool`/`int`/`float` exactly as `scalar2dtype` distinguishes them,
  and `seq` covers a python `list`/`tuple` (both unwrapped identically by the
  source).
* `PyErr` mirrors the two pybind exception types this core raises
  (`py::index_error`, `py::value_error`); failing functions return
  `Except PyErr`.
* `PyIdx` models one entry of an index tuple as `_unpack_indexes` classifies it:
  `Py_None`, `Py_Ellipsis`, a python slice with optional integer bounds, a
  python scalar, a boolean-dtyped tensor/array of known shape, or an
  integer-dtyped tensor/array of known shape.  (Indices whose shape is unknown
  to the binding layer are outside the modelled domain.)
-/

namespace MegIdx

inductive NpKind
  | kf
  | ki
  | ku
  | kb
  | kother
deriving DecidableEq

/-- Embeds `category_priority`: maps a numpy dtype kind to its promotion
category (float 3, signed/unsigned integer 2, boolean 1, anything else 0). -/
def category_priority : NpKind → Nat
  | .kf => 3
  | .ki => 2
  | .ku => 2
  | .kb => 1
  | .kother => 0

inductive PyErr
  | indexError (msg : String)
  | valueError (msg : String)
deriving DecidableEq

inductive PyVal
  | pynone
  | tensor (kind : NpKind) (dev : Nat)
  | symvar (kind : NpKind) (dev : Nat)
  | array (kind : NpKind)
  | scalarBool
  | scalarInt
  | scalarFloat
  | seq (elems : List PyVal)
  | other

/-- Embeds the collection loop of `_dtype_promotion`: walks the arguments and
builds the `tensors` and `scalars` dtype lists, in argument order.  `Py_None`
is skipped; tensor wrappers, numpy arrays/scalars and symbolic vars feed the
tensor group; python `bool`/`int`/`float` feed the scalar group via
`scalar2dtype` (`NPY_BOOL` / `NPY_INT32` / `NPY_FLOAT32`); any other object
(in particular a nested `list`/`tuple`) is skipped. -/
def collectKinds : List PyVal → List NpKind × List NpKind
  | [] => ([], [])
  | v :: rest =>
    let p := collectKinds rest
    match v with
    | .pynone => p
    | .tensor k _ => (k :: p.1, p.2)
    | .symvar k _ => (k :: p.1, p.2)
    | .array k => (k :: p.1, p.2)
    | .scalarBool => (p.1, .kb :: p.2)
    | .scalarInt => (p.1, .ki :: p.2)
    | .scalarFloat => (p.1, .kf :: p.2)
    | .seq _ => p
    | .other => p

/-- Embeds `max_priority`: maximum promotion category over a dtype list
(0 for the empty list). -/
def max_priority (ts : List NpKind) : Nat :=
  ts.foldl (fun m k => max m (category_priority k)) 0

/-- Embeds `promote_types` at the granularity this development needs: the
ordered sublist of dtypes whose category equals `cat`.  The actual pairwise
`PyArray_PromoteTypes` fold is an external numpy collaborator; it is a
deterministic function of this list, so two calls producing the same list
produce the same promoted dtype. -/
def promote_group (ts : List NpKind) (cat : Nat) : List NpKind :=
  ts.filter (fun k => category_priority k == cat)

/-- Embeds the argument-unwrapping prologue shared by `_dtype_promotion` and
`_get_device`: when called with exactly one argument that is a python
`list`/`tuple`, the sequence's elements become the argument list. -/
def unwrap_args : List PyVal → List PyVal
  | [PyVal.seq es] => es
  | args => args

/-- Embeds the body of `_dtype_promotion` after unwrapping: collect the two
dtype groups, take each group's maximum category, fail when both are 0, and
promote the scalar group only when its maximum category is strictly higher
than the tensor group's. -/
def dtype_promotion_core (a : List PyVal) : Except PyErr (List NpKind) :=
  let ts := (collectKinds a).1
  let ss := (collectKinds a).2
  if max_priority ss = 0 ∧ max_priority ts = 0 then
    .error (.valueError "invalid input, no dtype avaliable")
  else if max_priority ss > max_priority ts then
    .ok (promote_group ss (max_priority ss))
  else
    .ok (promote_group ts (max_priority ts))

/-- Embeds `_dtype_promotion` (unwrap, then promote). -/
def dtype_promotion (args : List PyVal) : Except PyErr (List NpKind) :=
  dtype_promotion_core (unwrap_args args)

/-- Device of an operand, when it has one: only tensor wrappers and symbolic
vars carry a comp node in `_get_device`. -/
def devOf : PyVal → Option Nat
  | .tensor _ d => some d
  | .symvar _ d => some d
  | _ => none

/-- Embeds the scanning loop of `_get_device`: the first tensor/symbolic
operand's device is authoritative and every later one must match it exactly,
else a `py::value_error` naming both devices is raised. -/
def get_device_loop : List PyVal → Option Nat → Except PyErr (Option Nat)
  | [], acc => .ok acc
  | v :: rest, acc =>
    match devOf v with
    | none => get_device_loop rest acc
    | some d =>
      match acc with
      | none => get_device_loop rest (some d)
      | some c =>
        if d ≠ c then
          .error (.valueError ("ambiguous device: " ++ toString c ++ " vs " ++ toString d))
        else
          get_device_loop rest (some c)

/-- Embeds `_get_device` after unwrapping: scan the operands; with no
tensor/symbolic operand fall back to the process default device. -/
def get_device_core (defaultDev : Nat) (a : List PyVal) : Except PyErr Nat :=
  match get_device_loop a none with
  | .error e => .error e
  | .ok none => .ok defaultDev
  | .ok (some c) => .ok c

/-- Embeds `_get_device` (unwrap, then scan). -/
def get_device (defaultDev : Nat) (args : List PyVal) : Except PyErr Nat :=
  get_device_core defaultDev (unwrap_args args)

/-- Embeds the wildcard scan of `_reshape_cpp` over a concrete shape tuple:
`unspec_axis` starts unset; a negative entry other than `-1` raises a
`py::value_error` naming the position and the value; a second `-1` raises a
`py::value_error` naming both `-1` positions; otherwise the single `-1`
position is recorded. -/
def reshape_scan_aux : List Int → Nat → Option Nat → Except PyErr (Option Nat)
  | [], _, u => .ok u
  | d :: rest, i, u =>
    if d < 0 then
      if d ≠ -1 then
        .error (.valueError ("expect shape [" ++ toString i ++ "] >= -1, got " ++ toString d))
      else
        match u with
        | some a =>
          .error (.valueError ("multiple -1 in shape: " ++ toString a ++ " & " ++ toString i))
        | none => reshape_scan_aux rest (i + 1) (some i)
    else
      reshape_scan_aux rest (i + 1) u

/-- Embeds the `unspec_axis` computation of `_reshape_cpp`; the returned
position (if any) is the axis `Reshape::make` is told to infer. -/
def reshape_scan (l : List Int) : Except PyErr (Option Nat) :=
  reshape_scan_aux l 0 none

/-- Specification-side position of the first `-1` entry of a shape list. -/
def firstNegOne : List Int → Option Nat
  | [] => none
  | d :: rest => if d = -1 then some 0 else (firstNegOne rest).map (· + 1)

inductive PyIdx
  | pynone
  | ellipsis
  | slice (start stop step : Option Int)
  | scalar (v : Int)
  | boolMask (shape : List Nat)
  | intTensor (shape : List Nat)
deriving DecidableEq

/-- Embeds `is_scalar` on an index entry: python scalars, and 0-dim
tensors/arrays (`PyArray_CheckAnyScalar` / `Tensor::is_scalar`). -/
def is_scalarP : PyIdx → Bool
  | .scalar _ => true
  | .boolMask s => s.isEmpty
  | .intTensor s => s.isEmpty
  | _ => false

/-- Matches `PySlice_Check` on an index entry. -/
def isSliceIdx : PyIdx → Bool
  | .slice _ _ _ => true
  | _ => false

/-- An index entry that is a slice or a bare python scalar — the entries the
basic (`Subtensor`) path is selected for. -/
def isBasicEntry : PyIdx → Bool
  | .slice _ _ _ => true
  | .scalar _ => true
  | _ => false

/-- Result of the first classification loop of `_unpack_indexes`. -/
structure ScanInfo where
  needRemove : Bool
  needExpand : Bool
  idxNdim : Nat
deriving DecidableEq

/-- Embeds the first loop of `_unpack_indexes`: `Py_None` raises the
`newaxis` `py::index_error`; an ellipsis sets `need_remove_ellipsis`; a
boolean-dtyped entry contributes its rank to `idx_ndim` and sets
`need_expand_bool_dim` when that rank exceeds 1; every other entry
contributes 1. -/
def scan_indexes : List PyIdx → Except PyErr ScanInfo
  | [] => .ok ⟨false, false, 0⟩
  | .pynone :: _ => .error (.indexError "newaxis is not allowed here")
  | .ellipsis :: rest =>
    match scan_indexes rest with
    | .error e => .error e
    | .ok info => .ok ⟨true, info.needExpand, info.idxNdim⟩
  | .boolMask s :: rest =>
    match scan_indexes rest with
    | .error e => .error e
    | .ok info => .ok ⟨info.needRemove, info.needExpand || decide (s.length > 1), s.length + info.idxNdim⟩
  | _ :: rest =>
    match scan_indexes rest with
    | .error e => .error e
    | .ok info => .ok ⟨info.needRemove, info.needExpand, 1 + info.idxNdim⟩

/-- Specification-side count of consumed axes: each boolean mask consumes its
rank, every other non-ellipsis entry consumes one axis. -/
def consumedAxes : List PyIdx → Nat
  | [] => 0
  | .ellipsis :: rest => consumedAxes rest
  | .boolMask s :: rest => s.length + consumedAxes rest
  | _ :: rest => 1 + consumedAxes rest

/-- Specification-side count of ellipsis markers in an index tuple. -/
def countEllipsis : List PyIdx → Nat
  | [] => 0
  | .ellipsis :: rest => 1 + countEllipsis rest
  | _ :: rest => countEllipsis rest

/-- Message of the rank-exceeding-index error in `_unpack_indexes`. -/
def too_many_msg (r n : Nat) : String :=
  "too many indices for tensor: tensor is " ++ toString r ++ "-dimensional, but "
    ++ toString n ++ " were indexed"

/-- Embeds the rank check of `_unpack_indexes`: with a statically known rank,
an index count exceeding it raises the `py::index_error`; when the rank is
unavailable (the `getattr(inp, "ndim")` cast fails) the check is skipped. -/
def rank_check (inpNdim : Option Nat) (n : Nat) : Except PyErr Unit :=
  match inpNdim with
  | some r => if n > r then .error (.indexError (too_many_msg r n)) else .ok ()
  | none => .ok ()

/-- Embeds the scanning loop of `_remove_ellipsis`: returns the ellipsis
position (if any) and `cur_sum`, the number of axes consumed by the
non-ellipsis entries; a second ellipsis raises the uniqueness
`py::index_error`. -/
def ellipsisScan : List PyIdx → Nat → Except PyErr (Option Nat × Nat)
  | [], _ => .ok (none, 0)
  | .ellipsis :: rest, i =>
    match ellipsisScan rest (i + 1) with
    | .error e => .error e
    | .ok (some _, _) => .error (.indexError "only one ellipsis is allowed.")
    | .ok (none, c) => .ok (some i, c)
  | .boolMask s :: rest, i =>
    match ellipsisScan rest (i + 1) with
    | .error e => .error e
    | .ok (p, c) => .ok (p, s.length + c)
  | _ :: rest, i =>
    match ellipsisScan rest (i + 1) with
    | .error e => .error e
    | .ok (p, c) => .ok (p, 1 + c)

/-- Embeds `_remove_ellipsis`: with no ellipsis the tuple is returned as-is;
with one ellipsis and unknown tensor rank a `py::index_error` is raised;
otherwise the ellipsis is replaced by `rank - cur_sum` full slices.
(Boolean masks are modelled with statically known rank, so the
unknown-mask-rank branch of the source is outside the modelled domain.) -/
def remove_ellipsis (inpNdim : Option Nat) (idxs : List PyIdx) : Except PyErr (List PyIdx) :=
  match ellipsisScan idxs 0 with
  | .error e => .error e
  | .ok (none, _) => .ok idxs
  | .ok (some p, curSum) =>
    match inpNdim with
    | none => .error (.indexError "does not support Ellipsis when tensor's ndim is unknown.")
    | some nd =>
      .ok (idxs.take p ++ List.replicate (nd - curSum) (PyIdx.slice none none none) ++ idxs.drop (p + 1))

/-- Message of the boolean-mask shape-mismatch error in `_expand_bool_dim`. -/
def bool_mismatch_msg (d exp got : Nat) : String :=
  "boolean index did not match tensor along dimension " ++ toString d
    ++ "; dimension is " ++ toString exp
    ++ " but corresponding boolean dimension is " ++ toString got

/-- Embeds the inner validation loop of `_expand_bool_dim`, with an explicit
iteration budget `fuel` (structural recursion): starting at `j`, find the
first mask dimension whose size differs from the tensor dimension at
`tdim + j - offset`. -/
def first_mismatch_go (cs ms : List Nat) (off td : Nat) : Nat → Nat → Option Nat
  | _, 0 => none
  | j, fuel + 1 =>
    if j < ms.length then
      if cs.getD (td + j - off) 0 ≠ ms.getD j 0 then some j
      else first_mismatch_go cs ms off td (j + 1) fuel
    else none

/-- The validation loop of `_expand_bool_dim` from position `j`; the budget
`ms.length - j` covers every remaining iteration of the source loop. -/
def first_mismatch (cs ms : List Nat) (off td : Nat) (j : Nat) : Option Nat :=
  first_mismatch_go cs ms off td j (ms.length - j)

/-- Embeds the loop of `_expand_bool_dim` (static-shape path): `cs` is the
current tensor shape, `i` the tuple position, `off`/`td` the source's
`offset`/`tdim` counters.  A boolean mask of rank above 1 is validated
dimension-by-dimension (first mismatch raises the `py::index_error`), then
flattened to rank 1 while the tensor shape has the mask's axes spliced into
one flat axis; a boolean mask of rank at most 1 is kept and (as in the
source) does not advance `tdim`; any other entry advances `tdim` by one. -/
def expand_bool_aux : List Nat → Nat → Nat → Nat → List PyIdx → Except PyErr (List Nat × List PyIdx)
  | cs, _, _, _, [] => .ok (cs, [])
  | cs, i, off, td, .boolMask ms :: rest =>
    if ms.length > 1 then
      match first_mismatch cs ms off td 0 with
      | some j =>
        .error (.indexError (bool_mismatch_msg (td + j) (cs.getD (td + j - off) 0) (ms.getD j 0)))
      | none =>
        let flat := ms.foldl (· * ·) 1
        let cs2 := cs.take i ++ flat :: cs.drop (td + ms.length - off)
        match expand_bool_aux cs2 (i + 1) (off + 1) (td + ms.length) rest with
        | .error e => .error e
        | .ok (fs, out) => .ok (fs, PyIdx.boolMask [flat] :: out)
    else
      match expand_bool_aux cs (i + 1) off td rest with
      | .error e => .error e
      | .ok (fs, out) => .ok (fs, PyIdx.boolMask ms :: out)
  | cs, i, off, td, k :: rest =>
    match expand_bool_aux cs (i + 1) off (td + 1) rest with
    | .error e => .error e
    | .ok (fs, out) => .ok (fs, k :: out)

/-- Embeds `_expand_bool_dim` on the tensor's shape and the index tuple,
returning the reshaped tensor's shape and the rewritten tuple. -/
def expand_bool_dim (tshape : List Nat) (idxs : List PyIdx) : Except PyErr (List Nat × List PyIdx) :=
  expand_bool_aux tshape 0 0 0 idxs

/-- An index-tensor operand as `_get_index` records it: a python scalar is
materialized as an `Int32` constant; a non-boolean index tensor is kept; a
boolean index tensor is sent through `CondTake` and its index output (second
output) is used. -/
inductive IndexOperand
  | ofInt (v : Int)
  | ofIntTensor (shape : List Nat)
  | ofBoolCondTake (shape : List Nat)
deriving DecidableEq

/-- Operand recorded for a value entry (`push(handle)` in the source). -/
def operandOf : PyIdx → IndexOperand
  | .scalar v => .ofInt v
  | .intTensor s => .ofIntTensor s
  | .boolMask s => .ofBoolCondTake s
  | _ => .ofInt 0

/-- One element of `cpp_items`: `(axis, has_start, has_stop, has_step, is_index)`. -/
abbrev SubItem := Int × Bool × Bool × Bool × Bool

/-- State of the item-building loop of `_unpack_indexes`. -/
structure BuildSt where
  items : List SubItem
  tensors : List IndexOperand
  use_subtensor : Bool
  curAxis : Int

/-- Embeds one iteration of the item-building loop of `_unpack_indexes`:
advance `cur_axis`; clear `use_subtensor` unless the entry is a scalar or a
slice; a full slice produces no item; a partial slice records which of
`start`/`stop`/`step` are present and pushes each present bound as an operand;
any other entry records a value item and pushes its operand. -/
def build_step (st : BuildSt) (k : PyIdx) : BuildSt :=
  let ax := st.curAxis + 1
  let use := st.use_subtensor && (is_scalarP k || isSliceIdx k)
  match k with
  | .slice none none none => { st with curAxis := ax, use_subtensor := use }
  | .slice a b c =>
    { items := st.items ++ [(ax, a.isSome, b.isSome, c.isSome, false)],
      tensors := st.tensors ++ (a.toList.map IndexOperand.ofInt)
        ++ (b.toList.map IndexOperand.ofInt) ++ (c.toList.map IndexOperand.ofInt),
      use_subtensor := use, curAxis := ax }
  | k =>
    { items := st.items ++ [(ax, false, false, false, true)],
      tensors := st.tensors ++ [operandOf k],
      use_subtensor := use, curAxis := ax }

/-- Embeds the item-building loop of `_unpack_indexes` over the whole tuple. -/
def build_items (l : List PyIdx) : BuildSt :=
  l.foldl build_step ⟨[], [], true, -1⟩

/-- Result of `_unpack_indexes`: the (possibly reshaped) input's shape, the
ordered index-tensor operands, the `cpp_items`, the basic-path flag and the
bool-expansion flag. -/
structure UnpackResult where
  inpShape : Option (List Nat)
  tensors : List IndexOperand
  items : List SubItem
  use_subtensor : Bool
  expandedBool : Bool

/-- Embeds `_unpack_indexes` on a tensor of (optionally known) shape and an
already-tupled index expression: classification scan, best-effort rank check,
ellipsis removal, boolean-mask expansion (only when the shape is known), then
item building. -/
def unpack_indexes (inpShape : Option (List Nat)) (idxs : List PyIdx) :
    Except PyErr UnpackResult :=
  match scan_indexes idxs with
  | .error e => .error e
  | .ok info =>
    match rank_check (inpShape.map List.length) info.idxNdim with
    | .error e => .error e
    | .ok _ =>
      let step1 : Except PyErr (List PyIdx) :=
        if info.needRemove then remove_ellipsis (inpShape.map List.length) idxs
        else .ok idxs
      match step1 with
      | .error e => .error e
      | .ok tv =>
        let step2 : Except PyErr (Option (List Nat) × List PyIdx) :=
          if info.needExpand then
            match inpShape with
            | some s =>
              match expand_bool_dim s tv with
              | .error e => .error e
              | .ok (s2, tv2) => .ok (some s2, tv2)
            | none => .ok (none, tv)
          else .ok (inpShape, tv)
        match step2 with
        | .error e => .error e
        | .ok (shp, tv2) =>
          let st := build_items tv2
          .ok ⟨shp, st.tensors, st.items, st.use_subtensor, info.needExpand⟩

/-- A raw index expression handed to `_getitem_cpp`/`_setitem_cpp`: either a
single entry or a python tuple of entries. -/
inductive GetIdx
  | single (i : PyIdx)
  | tup (l : List PyIdx)
deriving DecidableEq

/-- Tupling prologue of `_unpack_indexes`. -/
def asTuple : GetIdx → List PyIdx
  | .single i => [i]
  | .tup l => l

/-- Whether an index entry exposes a `dtype` attribute. -/
def hasDtypeAttr : PyIdx → Bool
  | .boolMask _ => true
  | .intTensor _ => true
  | _ => false

/-- Whether an index entry exposes a `shape` attribute. -/
def hasShapeAttr : PyIdx → Bool
  | .boolMask _ => true
  | .intTensor _ => true
  | _ => false

/-- Embeds `is_bool_dtype` on an index entry. -/
def isBoolDtypeIdx : PyIdx → Bool
  | .boolMask _ => true
  | _ => false

/-- Shape tuple of a tensor-like index entry (`_make_shape_tuple` of its
`shape` attribute). -/
def idxShapeOf : PyIdx → List Nat
  | .boolMask s => s
  | .intTensor s => s
  | _ => []

/-- Embeds the guard of `_try_cond_take`: the whole index expression must be a
single operand exposing `dtype` and `shape`, boolean-dtyped, with shape tuple
equal to the indexed tensor's. -/
def try_cond_take_fires (tshape : List Nat) (idx : GetIdx) : Bool :=
  match idx with
  | .single i => hasDtypeAttr i && hasShapeAttr i && isBoolDtypeIdx i && (idxShapeOf i == tshape)
  | .tup _ => false

/-- Outcome of `_getitem_cpp`'s lowering decision: either a single `CondTake`
primitive invocation whose first output is returned, or the general path
through the full index normalizer (followed by `Subtensor` when
`use_subtensor` holds, else `IndexingMultiAxisVec`). -/
inductive GetLowering
  | condTake
  | general (r : UnpackResult)

/-- Embeds the dispatch of `_getitem_cpp`: `_try_cond_take` first (returning
its first output), otherwise the full normalizer runs. -/
def getitem_lowering (tshape : List Nat) (idx : GetIdx) : Except PyErr GetLowering :=
  if try_cond_take_fires tshape idx then .ok .condTake
  else Except.map GetLowering.general (unpack_indexes (some tshape) (asTuple idx))

/-- Embeds the shape-joining loop of `_setitem_cpp`'s error path: each
dimension is appended, and a comma is appended after it whenever its position
is nonzero (`lhs += std::to_string(d); if (j) lhs += ","`). -/
def join_comma_aux : Nat → List Nat → String
  | _, [] => ""
  | j, d :: rest => toString d ++ (if j = 0 then "" else ",") ++ join_comma_aux (j + 1) rest

/-- Shape rendering used by `_setitem_cpp`'s mismatch message. -/
def join_comma (l : List Nat) : String :=
  join_comma_aux 0 l

/-- Message of the broadcast-incompatibility error in `_setitem_cpp`. -/
def shape_mismatch_msg (tmp value : List Nat) : String :=
  "cannot copy tensor with shape (" ++ join_comma value
    ++ ") to subtensor with shape (" ++ join_comma tmp ++ ")"

/-- Embeds the trailing-dimension loop of `_setitem_cpp`: for `i` within both
shapes' lengths, compare `value_shape[len-1-i]` against
`tmp_result_shape[len-1-i]`; a value size that is neither 1 nor equal raises
the `py::value_error`. -/
def setitem_check_go (tmp value : List Nat) : Nat → Nat → Except PyErr Unit
  | _, 0 => .ok ()
  | i, fuel + 1 =>
    if i < value.length ∧ i < tmp.length then
      let vs := value.getD (value.length - i - 1) 0
      let ts := tmp.getD (tmp.length - i - 1) 0
      if vs ≠ 1 ∧ vs ≠ ts then .error (.valueError (shape_mismatch_msg tmp value))
      else setitem_check_go tmp value (i + 1) fuel
    else .ok ()

/-- Embeds the broadcast-compatibility check `_setitem_cpp` performs after the
gather sub-plan is lowered, on the gathered result's shape `tmp` and the
value's shape `value`; the iteration budget `min value.length tmp.length`
covers every iteration of the source loop. -/
def setitem_broadcast_check (tmp value : List Nat) : Except PyErr Unit :=
  setitem_check_go tmp value 0 (min value.length tmp.length)

/-- Modelled from the spec: a tensor handle as the primitive operations
(section 6 of the spec) observe it — a shape together with the element at
each multi-index.  The primitives themselves (basic-select / `Subtensor`,
multi-axis-gather / `IndexingMultiAxisVec`) live in the execution engine,
outside this repository's sources, so their semantics below follow the spec's
description of them. -/
@[ext]
structure STensor (α : Type) where
  shape : List Nat
  data : List Nat → α

/-- Modelled from the spec: one lowered item as the primitives receive it —
either a slice descriptor (optional start/stop/step) or a value item whose
index operand is a tensor of naturals with shape `ishape` and entries
`idata`.  A scalar index is the rank-0 case `ishape = []`. -/
inductive GIdx
  | gslice (start stop step : Option Int)
  | gval (ishape : List Nat) (idata : List Nat → Nat)

/-- Whether a lowered item is a slice or a rank-0 (scalar) value item. -/
def gvalRank0 : GIdx → Bool
  | .gval s _ => s.isEmpty
  | .gslice _ _ _ => true

/-- Modelled from the spec: resolution of a slice descriptor against an axis
of size `n`, following python slice semantics.  Both primitives receive the
identical descriptor and operands, so a single shared resolution function is
used for both lowering paths. -/
def resolveSlice (n : Nat) (ostart ostop ostep : Option Int) : List Nat :=
  let step := ostep.getD 1
  if step = 0 then []
  else if 0 < step then
    let stp := step.toNat
    let s0 := ostart.getD 0
    let s1 : Int := if s0 < 0 then s0 + n else s0
    let s : Nat := (min (max s1 0) n).toNat
    let t0 := ostop.getD n
    let t1 : Int := if t0 < 0 then t0 + n else t0
    let t : Nat := (min (max t1 0) n).toNat
    (List.range ((t - s + stp - 1) / stp)).map (fun j => s + j * stp)
  else
    let stp := (-step).toNat
    let s0 := ostart.getD ((n : Int) - 1)
    let s1 : Int := if s0 < 0 then s0 + n else s0
    let s : Int := min (max s1 (-1)) ((n : Int) - 1)
    let t0 := ostop.getD (-1)
    let t1 : Int := if ostop.isSome ∧ t0 < 0 then t0 + n else t0
    let t : Int := min (max t1 (-1)) ((n : Int) - 1)
    (List.range (((s - t).toNat + stp - 1) / stp)).map (fun j => (s - j * stp).toNat)

/-- Modelled from the spec: restricting axis `k` to the selected positions
`sel` (slice semantics, shared by both primitives). -/
def applySliceAxis {α : Type} (t : STensor α) (k : Nat) (sel : List Nat) : STensor α :=
  ⟨t.shape.take k ++ sel.length :: t.shape.drop (k + 1),
   fun ix => t.data (ix.take k ++ sel.getD (ix.getD k 0) 0 :: ix.drop (k + 1))⟩

/-- Modelled from the spec: the basic-select primitive's handling of a value
item — pick position `v` on axis `k` and drop the axis. -/
def selectAxis {α : Type} (t : STensor α) (k : Nat) (v : Nat) : STensor α :=
  ⟨t.shape.take k ++ t.shape.drop (k + 1),
   fun ix => t.data (ix.take k ++ v :: ix.drop k)⟩

/-- Modelled from the spec: the multi-axis-gather primitive's handling of a
value item — axis `k` is replaced by the index operand's axes; the element at
a multi-index is read from the position the index operand stores there. -/
def gatherAxis {α : Type} (t : STensor α) (k : Nat) (ishape : List Nat)
    (idata : List Nat → Nat) : STensor α :=
  ⟨t.shape.take k ++ ishape ++ t.shape.drop (k + 1),
   fun ix => t.data (ix.take k ++ idata ((ix.drop k).take ishape.length) :: ix.drop (k + ishape.length))⟩

/-- Modelled from the spec: evaluation of the basic path (`Subtensor` /
basic-select) over the lowered items, walking axes left to right; a value
item uses its operand's rank-0 entry and drops the axis. -/
def subtensorEvalAux {α : Type} (t : STensor α) (k : Nat) : List GIdx → STensor α
  | [] => t
  | .gslice a b c :: rest =>
    subtensorEvalAux (applySliceAxis t k (resolveSlice (t.shape.getD k 0) a b c)) (k + 1) rest
  | .gval _ f :: rest => subtensorEvalAux (selectAxis t k (f [])) k rest

/-- Modelled from the spec: evaluation of the advanced path
(`IndexingMultiAxisVec` / multi-axis gather) over the same lowered items; a
value item splices its index operand's axes in place of the indexed axis. -/
def gatherEvalAux {α : Type} (t : STensor α) (k : Nat) : List GIdx → STensor α
  | [] => t
  | .gslice a b c :: rest =>
    gatherEvalAux (applySliceAxis t k (resolveSlice (t.shape.getD k 0) a b c)) (k + 1) rest
  | .gval s f :: rest => gatherEvalAux (gatherAxis t k s f) (k + s.length) rest

/-! ### Helper lemmas -/

theorem unwrap_args_eq (args : List PyVal) (h : ∀ es, args ≠ [PyVal.seq es]) :
    unwrap_args args = args := by
  cases args with
  | nil => rfl
  | cons x rest =>
    cases rest with
    | cons y r => cases x <;> rfl
    | nil => cases x <;> first | rfl | exact absurd rfl (h _)

theorem scan_pynone (l : List PyIdx) (h : PyIdx.pynone ∈ l) :
    scan_indexes l = .error (.indexError "newaxis is not allowed here") := by
  induction l with
  | nil => simp at h
  | cons k rest ih =>
    cases k with
    | pynone => rfl
    | ellipsis =>
      have hr : PyIdx.pynone ∈ rest := by simpa using h
      simp only [scan_indexes, ih hr]
    | boolMask s =>
      have hr : PyIdx.pynone ∈ rest := by simpa using h
      simp only [scan_indexes, ih hr]
    | slice a b c =>
      have hr : PyIdx.pynone ∈ rest := by simpa using h
      simp only [scan_indexes, ih hr]
    | scalar v =>
      have hr : PyIdx.pynone ∈ rest := by simpa using h
      simp only [scan_indexes, ih hr]
    | intTensor s =>
      have hr : PyIdx.pynone ∈ rest := by simpa using h
      simp only [scan_indexes, ih hr]

theorem scan_no_pynone_ok (l : List PyIdx) (h : PyIdx.pynone ∉ l) :
    ∃ info, scan_indexes l = .ok info := by
  induction l with
  | nil => exact ⟨⟨false, false, 0⟩, rfl⟩
  | cons k rest ih =>
    have h2 : PyIdx.pynone ∉ rest := fun hm => h (List.mem_cons_of_mem _ hm)
    obtain ⟨info, hinfo⟩ := ih h2
    cases k with
    | pynone => exact absurd (List.mem_cons_self _ _) h
    | ellipsis =>
      exact ⟨⟨true, info.needExpand, info.idxNdim⟩, by simp only [scan_indexes, hinfo]⟩
    | boolMask s =>
      exact ⟨⟨info.needRemove, info.needExpand || decide (s.length > 1), s.length + info.idxNdim⟩,
        by simp only [scan_indexes, hinfo]⟩
    | slice a b c =>
      exact ⟨⟨info.needRemove, info.needExpand, 1 + info.idxNdim⟩, by simp only [scan_indexes, hinfo]⟩
    | scalar v =>
      exact ⟨⟨info.needRemove, info.needExpand, 1 + info.idxNdim⟩, by simp only [scan_indexes, hinfo]⟩
    | intTensor s =>
      exact ⟨⟨info.needRemove, info.needExpand, 1 + info.idxNdim⟩, by simp only [scan_indexes, hinfo]⟩

theorem scan_err (l : List PyIdx) (e : PyErr) (h : scan_indexes l = .error e) :
    e = .indexError "newaxis is not allowed here" := by
  by_cases hm : PyIdx.pynone ∈ l
  · rw [scan_pynone l hm] at h
    injection h with h1
    exact h1.symm
  · obtain ⟨info, hinfo⟩ := scan_no_pynone_ok l hm
    rw [hinfo] at h
    exact absurd h (by simp)

theorem scan_ok_ndim (l : List PyIdx) : ∀ (info : ScanInfo), scan_indexes l = .ok info →
    info.idxNdim = consumedAxes l := by
  induction l with
  | nil =>
    intro info h
    injection h with h1
    rw [← h1]
    rfl
  | cons k rest ih =>
    intro info h
    cases k with
    | pynone => exact absurd h (by simp [scan_indexes])
    | ellipsis =>
      cases hr : scan_indexes rest with
      | error e =>
        simp only [scan_indexes, hr] at h
        exact absurd h (by simp)
      | ok i2 =>
        simp only [scan_indexes, hr, Except.ok.injEq] at h
        rw [← h]
        simpa [consumedAxes] using ih i2 hr
    | boolMask s =>
      cases hr : scan_indexes rest with
      | error e =>
        simp only [scan_indexes, hr] at h
        exact absurd h (by simp)
      | ok i2 =>
        simp only [scan_indexes, hr, Except.ok.injEq] at h
        rw [← h]
        simp only [consumedAxes]
        rw [ih i2 hr]
    | slice a b c =>
      cases hr : scan_indexes rest with
      | error e =>
        simp only [scan_indexes, hr] at h
        exact absurd h (by simp)
      | ok i2 =>
        simp only [scan_indexes, hr, Except.ok.injEq] at h
        rw [← h]
        simp only [consumedAxes]
        rw [ih i2 hr]
    | scalar v =>
      cases hr : scan_indexes rest with
      | error e =>
        simp only [scan_indexes, hr] at h
        exact absurd h (by simp)
      | ok i2 =>
        simp only [scan_indexes, hr, Except.ok.injEq] at h
        rw [← h]
        simp only [consumedAxes]
        rw [ih i2 hr]
    | intTensor s =>
      cases hr : scan_indexes rest with
      | error e =>
        simp only [scan_indexes, hr] at h
        exact absurd h (by simp)
      | ok i2 =>
        simp only [scan_indexes, hr, Except.ok.injEq] at h
        rw [← h]
        simp only [consumedAxes]
        rw [ih i2 hr]

theorem rank_check_err (nd : Option Nat) (n : Nat) (e : PyErr)
    (h : rank_check nd n = .error e) : ∃ m, e = .indexError m := by
  cases nd with
  | none => simp [rank_check] at h
  | some r =>
    simp only [rank_check] at h
    split at h
    · injection h with h1
      exact ⟨_, h1.symm⟩
    · exact absurd h (by simp)

/-! ### Claim theorems -/

/-- Claim C1 (code bug): on `set`, the trailing-dimension broadcast check of
`_setitem_cpp` does reject value shape `(2,5)` against gathered shape `(2,3)`
with a `ValueError`, but because the source appends the comma after each
dimension (instead of before each dimension but the first), the message
renders the shapes as `(25,)` and `(23,)` — the comma-joined forms `(2,3)` /
`(2,5)` the claim promises never appear in it.  A compatible value shape
`(1,3)` passes the check. -/
theorem claim_C1_code_behavior :
    setitem_broadcast_check [2, 3] [2, 5] =
      .error (.valueError "cannot copy tensor with shape (25,) to subtensor with shape (23,)") ∧
    ¬ ("2,3".data <:+: "cannot copy tensor with shape (25,) to subtensor with shape (23,)".data) ∧
    ¬ ("2,5".data <:+: "cannot copy tensor with shape (25,) to subtensor with shape (23,)".data) ∧
    setitem_broadcast_check [2, 3] [1, 3] = .ok () := by
  refine ⟨rfl, by decide, by decide, rfl⟩

/-- Claim C7: `_dtype_promotion` partitions the operands into a tensor group
and a scalar group, computes each group's maximum promotion category, and
promotes the scalar group only when its maximum category is strictly higher;
on a tie the tensor group wins.  In particular an integer scalar together
with a float tensor promotes within the tensor group, giving the float
dtype. -/
theorem claim_C7 (args : List PyVal) :
    (max_priority (collectKinds (unwrap_args args)).2 ≤ max_priority (collectKinds (unwrap_args args)).1 →
      0 < max_priority (collectKinds (unwrap_args args)).1 →
      dtype_promotion args =
        .ok (promote_group (collectKinds (unwrap_args args)).1
          (max_priority (collectKinds (unwrap_args args)).1))) ∧
    (max_priority (collectKinds (unwrap_args args)).1 < max_priority (collectKinds (unwrap_args args)).2 →
      dtype_promotion args =
        .ok (promote_group (collectKinds (unwrap_args args)).2
          (max_priority (collectKinds (unwrap_args args)).2))) ∧
    dtype_promotion [PyVal.scalarInt, PyVal.tensor NpKind.kf 0] = .ok [NpKind.kf] := by
  refine ⟨?_, ?_, rfl⟩
  · intro h1 h2
    simp only [dtype_promotion, dtype_promotion_core]
    rw [if_neg (by omega), if_neg (by omega)]
  · intro h1
    simp only [dtype_promotion, dtype_promotion_core]
    rw [if_neg (by omega), if_pos (by omega)]

/-- Witness for C7: one integer scalar and one float tensor; the scalar
group's maximum category (integer, 2) does not exceed the tensor group's
(float, 3), and the promoted result is the tensor group's float dtype. -/
theorem claim_C7_witness :
    max_priority (collectKinds (unwrap_args [PyVal.scalarInt, PyVal.tensor NpKind.kf 0])).2 ≤
      max_priority (collectKinds (unwrap_args [PyVal.scalarInt, PyVal.tensor NpKind.kf 0])).1 ∧
    dtype_promotion [PyVal.scalarInt, PyVal.tensor NpKind.kf 0] = .ok [NpKind.kf] := by
  refine ⟨by decide, ?_⟩
  exact (claim_C7 [PyVal.scalarInt, PyVal.tensor NpKind.kf 0]).1 (by decide) (by decide)

/-- Claim C8, amended: `_dtype_promotion` and `_get_device` return identical
results for a bare argument list and for the same operand list wrapped in one
sequence, provided the bare list is not itself a single list/tuple operand
(in that case the bare call unrolls that operand itself while the wrapped
call skips it as unclassifiable, so the results can differ). -/
theorem claim_C8 (args : List PyVal) (dd : Nat) (h : ∀ es, args ≠ [PyVal.seq es]) :
    dtype_promotion args = dtype_promotion [PyVal.seq args] ∧
    get_device dd args = get_device dd [PyVal.seq args] := by
  have h1 : unwrap_args args = args := unwrap_args_eq args h
  have h2 : unwrap_args [PyVal.seq args] = args := rfl
  constructor
  · show dtype_promotion_core (unwrap_args args) = dtype_promotion_core (unwrap_args [PyVal.seq args])
    rw [h1, h2]
  · show get_device_core dd (unwrap_args args) = get_device_core dd (unwrap_args [PyVal.seq args])
    rw [h1, h2]

/-- Counterexample to claim C8 as stated: for the operand list whose sole
operand is the python list `[1]`, the bare invocation unrolls that list and
promotes the integer scalar, while the wrapped invocation sees a nested
sequence, classifies nothing, and raises the no-dtype `ValueError`. -/
theorem claim_C8_counterexample :
    dtype_promotion [PyVal.seq [PyVal.scalarInt]] = .ok [NpKind.ki] ∧
    dtype_promotion [PyVal.seq [PyVal.seq [PyVal.scalarInt]]] =
      .error (.valueError "invalid input, no dtype avaliable") ∧
    dtype_promotion [PyVal.seq [PyVal.scalarInt]] ≠
      dtype_promotion [PyVal.seq [PyVal.seq [PyVal.scalarInt]]] := by
  refine ⟨rfl, rfl, fun h => ?_⟩
  have h2 : (Except.ok [NpKind.ki] : Except PyErr (List NpKind)) =
      .error (.valueError "invalid input, no dtype avaliable") := h
  exact Except.noConfusion h2

/-- Witness for the amended C8: a two-operand list (not a single sequence), on
which bare and wrapped invocations agree for both routines. -/
theorem claim_C8_witness :
    dtype_promotion [PyVal.scalarInt, PyVal.scalarFloat] =
      dtype_promotion [PyVal.seq [PyVal.scalarInt, PyVal.scalarFloat]] ∧
    get_device 7 [PyVal.scalarInt, PyVal.scalarFloat] =
      get_device 7 [PyVal.seq [PyVal.scalarInt, PyVal.scalarFloat]] :=
  claim_C8 [PyVal.scalarInt, PyVal.scalarFloat] 7
    (by intro es h; injection h with h1 h2; exact PyVal.noConfusion h1)

/-- Claim C10: any index tuple containing `Py_None` makes `_unpack_indexes`
raise the newaxis `py::index_error` in its first classification loop, before
any item descriptor is built or any primitive operation is constructed (the
error aborts the pipeline before the rank check, ellipsis removal, mask
expansion and item building). -/
theorem claim_C10 (inpShape : Option (List Nat)) (idxs : List PyIdx)
    (h : PyIdx.pynone ∈ idxs) :
    unpack_indexes inpShape idxs = .error (.indexError "newaxis is not allowed here") := by
  simp only [unpack_indexes, scan_pynone idxs h]

/-- Witness for C10 at a concrete get/set index tuple containing `None`. -/
theorem claim_C10_witness :
    unpack_indexes (some [2, 2]) [PyIdx.scalar 0, PyIdx.pynone] =
      .error (.indexError "newaxis is not allowed here") :=
  claim_C10 (some [2, 2]) [PyIdx.scalar 0, PyIdx.pynone] (by decide)

/-- Claim C5: the first loop of `_unpack_indexes` sums each boolean mask's
rank and 1 for every other non-ellipsis entry; with a statically known rank
`r`, a consumed-axis count exceeding `r` fails with the `py::index_error`
whose message names both the tensor rank and the indexed axis count; with the
rank unavailable the check returns successfully (silently skipped). -/
theorem claim_C5 (idxs : List PyIdx) (info : ScanInfo) (h : scan_indexes idxs = .ok info) :
    info.idxNdim = consumedAxes idxs ∧
    (∀ s : List Nat, s.length < info.idxNdim →
      unpack_indexes (some s) idxs = .error (.indexError (too_many_msg s.length info.idxNdim))) ∧
    rank_check none info.idxNdim = .ok () := by
  refine ⟨scan_ok_ndim idxs info h, ?_, rfl⟩
  intro s hs
  have hmap : Option.map List.length (some s) = some s.length := rfl
  simp only [unpack_indexes, h, hmap, rank_check]
  rw [if_pos (by omega)]

/-- Claim C3: `_getitem_cpp` first tries `_try_cond_take`; a single
boolean-dtyped index whose shape equals the tensor's collapses the lookup to
one `CondTake` invocation whose first output is returned, bypassing the
normalizer; otherwise (shape differs, or the index has no boolean dtype) the
general normalizer path runs. -/
theorem claim_C3 (tshape : List Nat) (idx : GetIdx) :
    ((∃ s, idx = GetIdx.single (PyIdx.boolMask s) ∧ s = tshape) →
      getitem_lowering tshape idx = .ok GetLowering.condTake) ∧
    ((∀ s, idx = GetIdx.single (PyIdx.boolMask s) → s ≠ tshape) →
      getitem_lowering tshape idx =
        Except.map GetLowering.general (unpack_indexes (some tshape) (asTuple idx))) := by
  constructor
  · rintro ⟨s, rfl, rfl⟩
    simp [getitem_lowering, try_cond_take_fires, hasDtypeAttr, hasShapeAttr, isBoolDtypeIdx,
      idxShapeOf]
  · intro h
    have hfires : try_cond_take_fires tshape idx = false := by
      cases idx with
      | tup l => rfl
      | single i =>
        cases i with
        | boolMask s =>
          have hs := h s rfl
          simp only [try_cond_take_fires, hasDtypeAttr, hasShapeAttr, isBoolDtypeIdx, idxShapeOf,
            Bool.true_and, beq_eq_false_iff_ne]
          exact hs
        | pynone => rfl
        | ellipsis => rfl
        | slice a b c => rfl
        | scalar v => rfl
        | intTensor s => rfl
    simp [getitem_lowering, hfires]

/-- Witness for C3: a full-shape boolean mask takes the `CondTake` path, and a
scalar index falls through to the general normalizer. -/
theorem claim_C3_witness :
    getitem_lowering [2] (GetIdx.single (PyIdx.boolMask [2])) = .ok GetLowering.condTake ∧
    getitem_lowering [2] (GetIdx.single (PyIdx.scalar 0)) =
      Except.map GetLowering.general (unpack_indexes (some [2]) [PyIdx.scalar 0]) := by
  constructor
  · exact (claim_C3 [2] (GetIdx.single (PyIdx.boolMask [2]))).1 ⟨[2], rfl, rfl⟩
  · exact (claim_C3 [2] (GetIdx.single (PyIdx.scalar 0))).2
      (by intro s hs; injection hs with h1; exact absurd h1 (by simp))

theorem gatherAxis_rank0 {α : Type} (t : STensor α) (k : Nat) (f : List Nat → Nat) :
    gatherAxis t k [] f = selectAxis t k (f []) := by
  unfold gatherAxis selectAxis
  ext1
  · simp
  · simp

theorem build_step_use (st : BuildSt) (k : PyIdx) :
    (build_step st k).use_subtensor = (st.use_subtensor && (is_scalarP k || isSliceIdx k)) := by
  cases k with
  | slice a b c => cases a <;> cases b <;> cases c <;> rfl
  | pynone => rfl
  | ellipsis => rfl
  | scalar v => rfl
  | boolMask s => rfl
  | intTensor s => rfl

theorem build_use (l : List PyIdx) : ∀ st : BuildSt,
    (∀ k ∈ l, (is_scalarP k || isSliceIdx k) = true) →
    (l.foldl build_step st).use_subtensor = st.use_subtensor := by
  induction l with
  | nil => intro st _; rfl
  | cons k rest ih =>
    intro st h
    rw [List.foldl_cons]
    rw [ih (build_step st k) (fun x hx => h x (List.mem_cons_of_mem _ hx))]
    rw [build_step_use, h k (List.mem_cons_self _ _), Bool.and_true]

theorem scan_basic (l : List PyIdx) (h : ∀ k ∈ l, isBasicEntry k = true) :
    scan_indexes l = .ok ⟨false, false, consumedAxes l⟩ := by
  induction l with
  | nil => rfl
  | cons k rest ih =>
    have hrest : ∀ x ∈ rest, isBasicEntry x = true := fun x hx => h x (List.mem_cons_of_mem _ hx)
    have hk := h k (List.mem_cons_self _ _)
    cases k with
    | slice a b c => simp only [scan_indexes, ih hrest, consumedAxes]
    | scalar v => simp only [scan_indexes, ih hrest, consumedAxes]
    | pynone => simp [isBasicEntry] at hk
    | ellipsis => simp [isBasicEntry] at hk
    | boolMask s => simp [isBasicEntry] at hk
    | intTensor s => simp [isBasicEntry] at hk

theorem isBasicEntry_scalar_or_slice (k : PyIdx) (h : isBasicEntry k = true) :
    (is_scalarP k || isSliceIdx k) = true := by
  cases k <;> first | rfl | exact absurd h (by simp [isBasicEntry])

/-- Claim C2: an index composed solely of slices and bare scalars keeps
`use_subtensor` true in `_unpack_indexes`, selecting the basic
(`Subtensor`/`SetSubtensor`) path; and on the spec-modelled primitive
semantics, evaluating the lowered items through the basic path agrees with
the always-advanced (multi-axis gather) path in both shape and values
whenever every value item is rank-0 (which is exactly what scalar entries
lower to). -/
theorem claim_C2 :
    (∀ (inpShape : Option (List Nat)) (idxs : List PyIdx) (r : UnpackResult),
      (∀ k ∈ idxs, isBasicEntry k = true) → unpack_indexes inpShape idxs = .ok r →
      r.use_subtensor = true) ∧
    (∀ (α : Type) (t : STensor α) (k : Nat) (entries : List GIdx),
      (∀ e ∈ entries, gvalRank0 e = true) →
      subtensorEvalAux t k entries = gatherEvalAux t k entries) := by
  constructor
  · intro inpShape idxs r hbasic hok
    have hscan := scan_basic idxs hbasic
    simp only [unpack_indexes, hscan] at hok
    cases hrc : rank_check (inpShape.map List.length) (consumedAxes idxs) with
    | error e =>
      simp only [hrc] at hok
      exact absurd hok (by simp)
    | ok u =>
      simp only [hrc] at hok
      have hok2 : (Except.ok (⟨inpShape, (build_items idxs).tensors, (build_items idxs).items,
          (build_items idxs).use_subtensor, false⟩ : UnpackResult) : Except PyErr UnpackResult) =
          .ok r := hok
      injection hok2 with h2
      rw [← h2]
      exact build_use idxs ⟨[], [], true, (-1 : Int)⟩
        (fun k hk => isBasicEntry_scalar_or_slice k (hbasic k hk))
  · intro α t k entries h
    induction entries generalizing t k with
    | nil => rfl
    | cons e rest ih =>
      have hrest : ∀ x ∈ rest, gvalRank0 x = true := fun x hx => h x (List.mem_cons_of_mem _ hx)
      cases e with
      | gslice a b c =>
        simp only [subtensorEvalAux, gatherEvalAux]
        exact ih _ _ hrest
      | gval s f =>
        have hmem := h _ (List.mem_cons_self _ _)
        cases s with
        | cons x xs => simp [gvalRank0] at hmem
        | nil =>
          simp only [subtensorEvalAux, gatherEvalAux, gatherAxis_rank0, List.length_nil,
            Nat.add_zero]
          exact ih _ _ hrest

/-- Witness for C2: a single scalar index on a rank-1 tensor takes the basic
path, and the two spec-modelled evaluators agree on a concrete rank-0 value
item. -/
theorem claim_C2_witness :
    Except.map UnpackResult.use_subtensor (unpack_indexes (some [3]) [PyIdx.scalar 0]) =
      .ok true ∧
    subtensorEvalAux (STensor.mk [3] (fun ix => ix.getD 0 0)) 0 [GIdx.gval [] (fun _ => 1)] =
      gatherEvalAux (STensor.mk [3] (fun ix => ix.getD 0 0)) 0 [GIdx.gval [] (fun _ => 1)] := by
  constructor
  · have h := claim_C2.1 (some [3]) [PyIdx.scalar 0]
      ⟨some [3], [IndexOperand.ofInt 0], [((0 : Int), false, false, false, true)], true, false⟩
      (by decide) rfl
    exact congrArg Except.ok h
  · exact claim_C2.2 Nat (STensor.mk [3] (fun ix => ix.getD 0 0)) 0
      [GIdx.gval [] (fun _ => 1)] (by decide)

/-- Witness for C5: three scalar indices on a rank-2 tensor. -/
theorem claim_C5_witness :
    unpack_indexes (some [4, 4]) [PyIdx.scalar 0, PyIdx.scalar 0, PyIdx.scalar 0] =
      .error (.indexError "too many indices for tensor: tensor is 2-dimensional, but 3 were indexed") :=
  (claim_C5 [PyIdx.scalar 0, PyIdx.scalar 0, PyIdx.scalar 0] ⟨false, false, 3⟩ rfl).2.1
    [4, 4] (by decide)

theorem countEllipsis_mem (l : List PyIdx) (h : 1 ≤ countEllipsis l) : PyIdx.ellipsis ∈ l := by
  induction l with
  | nil => simp [countEllipsis] at h
  | cons k rest ih =>
    cases k with
    | ellipsis => exact List.mem_cons_self _ _
    | pynone => exact List.mem_cons_of_mem _ (ih (by simpa [countEllipsis] using h))
    | slice a b c => exact List.mem_cons_of_mem _ (ih (by simpa [countEllipsis] using h))
    | scalar v => exact List.mem_cons_of_mem _ (ih (by simpa [countEllipsis] using h))
    | boolMask s => exact List.mem_cons_of_mem _ (ih (by simpa [countEllipsis] using h))
    | intTensor s => exact List.mem_cons_of_mem _ (ih (by simpa [countEllipsis] using h))

theorem scan_needRemove (l : List PyIdx) : ∀ info : ScanInfo, scan_indexes l = .ok info →
    PyIdx.ellipsis ∈ l → info.needRemove = true := by
  induction l with
  | nil => intro info h hm; simp at hm
  | cons k rest ih =>
    intro info h hm
    cases k with
    | pynone => exact absurd h (by simp [scan_indexes])
    | ellipsis =>
      cases hr : scan_indexes rest with
      | error e =>
        simp only [scan_indexes, hr] at h
        exact absurd h (by simp)
      | ok i2 =>
        simp only [scan_indexes, hr, Except.ok.injEq] at h
        rw [← h]
    | boolMask s =>
      have hm2 : PyIdx.ellipsis ∈ rest := by simpa using hm
      cases hr : scan_indexes rest with
      | error e =>
        simp only [scan_indexes, hr] at h
        exact absurd h (by simp)
      | ok i2 =>
        simp only [scan_indexes, hr, Except.ok.injEq] at h
        rw [← h]
        exact ih i2 hr hm2
    | slice a b c =>
      have hm2 : PyIdx.ellipsis ∈ rest := by simpa using hm
      cases hr : scan_indexes rest with
      | error e =>
        simp only [scan_indexes, hr] at h
        exact absurd h (by simp)
      | ok i2 =>
        simp only [scan_indexes, hr, Except.ok.injEq] at h
        rw [← h]
        exact ih i2 hr hm2
    | scalar v =>
      have hm2 : PyIdx.ellipsis ∈ rest := by simpa using hm
      cases hr : scan_indexes rest with
      | error e =>
        simp only [scan_indexes, hr] at h
        exact absurd h (by simp)
      | ok i2 =>
        simp only [scan_indexes, hr, Except.ok.injEq] at h
        rw [← h]
        exact ih i2 hr hm2
    | intTensor s =>
      have hm2 : PyIdx.ellipsis ∈ rest := by simpa using hm
      cases hr : scan_indexes rest with
      | error e =>
        simp only [scan_indexes, hr] at h
        exact absurd h (by simp)
      | ok i2 =>
        simp only [scan_indexes, hr, Except.ok.injEq] at h
        rw [← h]
        exact ih i2 hr hm2

theorem ellipsisScan_zero (l : List PyIdx) : countEllipsis l = 0 → ∀ i : Nat,
    ∃ c, ellipsisScan l i = .ok (none, c) := by
  induction l with
  | nil => intro h i; exact ⟨0, rfl⟩
  | cons k rest ih =>
    intro h i
    cases k with
    | ellipsis =>
      simp only [countEllipsis] at h
      omega
    | pynone =>
      obtain ⟨cc, hcc⟩ := ih (by simpa [countEllipsis] using h) (i + 1)
      exact ⟨1 + cc, by simp only [ellipsisScan, hcc]⟩
    | slice a b c =>
      obtain ⟨cc, hcc⟩ := ih (by simpa [countEllipsis] using h) (i + 1)
      exact ⟨1 + cc, by simp only [ellipsisScan, hcc]⟩
    | scalar v =>
      obtain ⟨cc, hcc⟩ := ih (by simpa [countEllipsis] using h) (i + 1)
      exact ⟨1 + cc, by simp only [ellipsisScan, hcc]⟩
    | boolMask s =>
      obtain ⟨cc, hcc⟩ := ih (by simpa [countEllipsis] using h) (i + 1)
      exact ⟨s.length + cc, by simp only [ellipsisScan, hcc]⟩
    | intTensor s =>
      obtain ⟨cc, hcc⟩ := ih (by simpa [countEllipsis] using h) (i + 1)
      exact ⟨1 + cc, by simp only [ellipsisScan, hcc]⟩

theorem ellipsisScan_one (l : List PyIdx) : countEllipsis l = 1 → ∀ i : Nat,
    ∃ p c, ellipsisScan l i = .ok (some p, c) := by
  induction l with
  | nil => intro h i; simp [countEllipsis] at h
  | cons k rest ih =>
    intro h i
    cases k with
    | ellipsis =>
      have h0 : countEllipsis rest = 0 := by
        simp only [countEllipsis] at h
        omega
      obtain ⟨cc, hcc⟩ := ellipsisScan_zero rest h0 (i + 1)
      exact ⟨i, cc, by simp only [ellipsisScan, hcc]⟩
    | pynone =>
      obtain ⟨p, cc, hcc⟩ := ih (by simpa [countEllipsis] using h) (i + 1)
      exact ⟨p, 1 + cc, by simp only [ellipsisScan, hcc]⟩
    | slice a b c =>
      obtain ⟨p, cc, hcc⟩ := ih (by simpa [countEllipsis] using h) (i + 1)
      exact ⟨p, 1 + cc, by simp only [ellipsisScan, hcc]⟩
    | scalar v =>
      obtain ⟨p, cc, hcc⟩ := ih (by simpa [countEllipsis] using h) (i + 1)
      exact ⟨p, 1 + cc, by simp only [ellipsisScan, hcc]⟩
    | boolMask s =>
      obtain ⟨p, cc, hcc⟩ := ih (by simpa [countEllipsis] using h) (i + 1)
      exact ⟨p, s.length + cc, by simp only [ellipsisScan, hcc]⟩
    | intTensor s =>
      obtain ⟨p, cc, hcc⟩ := ih (by simpa [countEllipsis] using h) (i + 1)
      exact ⟨p, 1 + cc, by simp only [ellipsisScan, hcc]⟩

theorem ellipsisScan_many (l : List PyIdx) : 2 ≤ countEllipsis l → ∀ i : Nat,
    ellipsisScan l i = .error (.indexError "only one ellipsis is allowed.") := by
  induction l with
  | nil => intro h i; simp [countEllipsis] at h
  | cons k rest ih =>
    intro h i
    cases k with
    | ellipsis =>
      by_cases h2 : 2 ≤ countEllipsis rest
      · simp only [ellipsisScan, ih h2 (i + 1)]
      · have hone : countEllipsis rest = 1 := by
          simp only [countEllipsis] at h
          omega
        obtain ⟨p, cc, hcc⟩ := ellipsisScan_one rest hone (i + 1)
        simp only [ellipsisScan, hcc]
    | pynone => simp only [ellipsisScan, ih (by simpa [countEllipsis] using h) (i + 1)]
    | slice a b c => simp only [ellipsisScan, ih (by simpa [countEllipsis] using h) (i + 1)]
    | scalar v => simp only [ellipsisScan, ih (by simpa [countEllipsis] using h) (i + 1)]
    | boolMask s => simp only [ellipsisScan, ih (by simpa [countEllipsis] using h) (i + 1)]
    | intTensor s => simp only [ellipsisScan, ih (by simpa [countEllipsis] using h) (i + 1)]

/-- Claim C6: an index tuple with two or more ellipsis markers makes index
normalization (get and set, via `_unpack_indexes`) fail with a
`py::index_error`; with exactly one ellipsis and a statically known rank
`_remove_ellipsis` succeeds (the bound `consumedAxes idxs ≤ r` reflects that
the rank check has already passed when `_remove_ellipsis` runs). -/
theorem claim_C6 (inpShape : Option (List Nat)) (idxs : List PyIdx) :
    (2 ≤ countEllipsis idxs → ∃ m, unpack_indexes inpShape idxs = .error (.indexError m)) ∧
    (countEllipsis idxs = 1 → ∀ r : Nat, consumedAxes idxs ≤ r →
      ∃ out, remove_ellipsis (some r) idxs = .ok out) := by
  constructor
  · intro hcount
    cases hscan : scan_indexes idxs with
    | error e =>
      refine ⟨"newaxis is not allowed here", ?_⟩
      simp only [unpack_indexes, hscan, scan_err idxs e hscan]
    | ok info =>
      have hmem : PyIdx.ellipsis ∈ idxs := countEllipsis_mem idxs (by omega)
      have hnr : info.needRemove = true := scan_needRemove idxs info hscan hmem
      cases hrc : rank_check (inpShape.map List.length) info.idxNdim with
      | error e =>
        obtain ⟨m, hm⟩ := rank_check_err _ _ _ hrc
        refine ⟨m, ?_⟩
        simp only [unpack_indexes, hscan, hrc, hm]
      | ok u =>
        refine ⟨"only one ellipsis is allowed.", ?_⟩
        have hrem : remove_ellipsis (inpShape.map List.length) idxs =
            .error (.indexError "only one ellipsis is allowed.") := by
          unfold remove_ellipsis
          rw [ellipsisScan_many idxs hcount 0]
        simp only [unpack_indexes, hscan, hrc, hnr, if_true, hrem]
  · intro hone r hle
    obtain ⟨p, c, hc⟩ := ellipsisScan_one idxs hone 0
    refine ⟨idxs.take p ++ List.replicate (r - c) (PyIdx.slice none none none) ++ idxs.drop (p + 1), ?_⟩
    unfold remove_ellipsis
    rw [hc]

/-- Witness for C6: two ellipses are rejected; one ellipsis with known rank 2
expands into two full slices. -/
theorem claim_C6_witness :
    unpack_indexes (some [2, 2]) [PyIdx.ellipsis, PyIdx.ellipsis] =
      .error (.indexError "only one ellipsis is allowed.") ∧
    remove_ellipsis (some 2) [PyIdx.ellipsis] =
      .ok [PyIdx.slice none none none, PyIdx.slice none none none] := by
  constructor
  · have h := (claim_C6 (some [2, 2]) [PyIdx.ellipsis, PyIdx.ellipsis]).1 (by decide)
    obtain ⟨m, hm⟩ := h
    exact rfl
  · have h := (claim_C6 none [PyIdx.ellipsis]).2 (by decide) 2 (by decide)
    obtain ⟨out, hout⟩ := h
    exact rfl

theorem reshape_aux_clean (l : List Int) : (∀ d ∈ l, 0 ≤ d) → ∀ (i : Nat) (u : Option Nat),
    reshape_scan_aux l i u = .ok u := by
  induction l with
  | nil => intro h i u; rfl
  | cons d rest ih =>
    intro h i u
    have hd : 0 ≤ d := h d (List.mem_cons_self _ _)
    simp only [reshape_scan_aux]
    rw [if_neg (by omega)]
    exact ih (fun x hx => h x (List.mem_cons_of_mem _ hx)) (i + 1) u

theorem reshape_aux_after (l : List Int) : ∀ (i a q : Nat), (∀ d ∈ l, -1 ≤ d) →
    firstNegOne l = some q →
    reshape_scan_aux l i (some a) =
      .error (.valueError ("multiple -1 in shape: " ++ toString a ++ " & " ++ toString (i + q))) := by
  induction l with
  | nil => intro i a q h hq; simp [firstNegOne] at hq
  | cons d rest ih =>
    intro i a q h hq
    by_cases hd : d = -1
    · subst hd
      simp [firstNegOne] at hq
      obtain rfl : q = 0 := by omega
      simp only [reshape_scan_aux]
      rw [if_pos (by norm_num), if_neg (by norm_num)]
      simp
    · cases hfr : firstNegOne rest with
      | none => simp [firstNegOne, hd, hfr] at hq
      | some q0 =>
        simp [firstNegOne, hd, hfr] at hq
        obtain rfl : q = q0 + 1 := by omega
        have hd2 : -1 ≤ d := h d (List.mem_cons_self _ _)
        simp only [reshape_scan_aux]
        rw [if_neg (by omega)]
        rw [ih (i + 1) a q0 (fun x hx => h x (List.mem_cons_of_mem _ hx)) hfr]
        have e1 : i + 1 + q0 = i + (q0 + 1) := by omega
        rw [e1]

theorem reshape_aux_multi (l : List Int) : ∀ (i p q : Nat), (∀ d ∈ l, -1 ≤ d) →
    firstNegOne l = some p → firstNegOne (l.drop (p + 1)) = some q →
    reshape_scan_aux l i none =
      .error (.valueError ("multiple -1 in shape: " ++ toString (i + p) ++ " & "
        ++ toString (i + p + 1 + q))) := by
  induction l with
  | nil => intro i p q h hp hq; simp [firstNegOne] at hp
  | cons d rest ih =>
    intro i p q h hp hq
    by_cases hd : d = -1
    · subst hd
      simp [firstNegOne] at hp
      obtain rfl : p = 0 := by omega
      simp only [List.drop_succ_cons, List.drop_zero] at hq
      exact reshape_aux_after rest (i + 1) i q (fun x hx => h x (List.mem_cons_of_mem _ hx)) hq
    · cases hfr : firstNegOne rest with
      | none => simp [firstNegOne, hd, hfr] at hp
      | some p0 =>
        simp [firstNegOne, hd, hfr] at hp
        obtain rfl : p = p0 + 1 := by omega
        simp only [List.drop_succ_cons] at hq
        have hd2 : -1 ≤ d := h d (List.mem_cons_self _ _)
        simp only [reshape_scan_aux]
        rw [if_neg (by omega)]
        rw [ih (i + 1) p0 q (fun x hx => h x (List.mem_cons_of_mem _ hx)) hfr hq]
        rw [show i + 1 + p0 = i + (p0 + 1) from by omega]

theorem reshape_aux_single (l : List Int) : ∀ i : Nat, (∀ d ∈ l, -1 ≤ d) → l.count (-1) = 1 →
    ∃ p, firstNegOne l = some p ∧ reshape_scan_aux l i none = .ok (some (i + p)) := by
  induction l with
  | nil => intro i h hc; simp at hc
  | cons d rest ih =>
    intro i h hc
    by_cases hd : d = -1
    · subst hd
      have hc0 : List.count (-1 : Int) rest = 0 := by
        rw [List.count_cons] at hc
        simp at hc
        omega
      have hall : ∀ x ∈ rest, 0 ≤ x := by
        intro x hx
        have h1 : -1 ≤ x := h x (List.mem_cons_of_mem _ hx)
        have h2 : x ≠ -1 := by
          intro hcontra
          exact (List.count_eq_zero.mp hc0) (hcontra ▸ hx)
        omega
      refine ⟨0, by simp [firstNegOne], ?_⟩
      exact reshape_aux_clean rest hall (i + 1) (some i)
    · have hd0 : 0 ≤ d := by
        have := h d (List.mem_cons_self _ _)
        omega
      have hbe : ((d : Int) == -1) = false := beq_eq_false_iff_ne.mpr hd
      have hc1 : List.count (-1 : Int) rest = 1 := by
        rw [List.count_cons, hbe] at hc
        simpa using hc
      obtain ⟨p, hp1, hp2⟩ := ih (i + 1) (fun x hx => h x (List.mem_cons_of_mem _ hx)) hc1
      refine ⟨p + 1, by simp [firstNegOne, hd, hp1], ?_⟩
      simp only [reshape_scan_aux]
      rw [if_neg (by omega)]
      rw [hp2]
      rw [show i + 1 + p = i + (p + 1) from by omega]

theorem reshape_aux_bad (l : List Int) : (∃ d ∈ l, d < -1) → ∀ (i : Nat) (u : Option Nat),
    ∃ m, reshape_scan_aux l i u = .error (.valueError m) := by
  induction l with
  | nil =>
    rintro ⟨d, hd, hlt⟩
    simp at hd
  | cons d rest ih =>
    rintro ⟨x, hx, hxlt⟩ i u
    by_cases hd : d < -1
    · refine ⟨"expect shape [" ++ toString i ++ "] >= -1, got " ++ toString d, ?_⟩
      simp only [reshape_scan_aux]
      rw [if_pos (by omega), if_pos (by omega)]
    · have hxr : x ∈ rest := by
        rcases List.mem_cons.mp hx with h1 | h1
        · exfalso
          rw [h1] at hxlt
          omega
        · exact h1
      by_cases hneg : d < 0
      · have hdm : d = -1 := by omega
        subst hdm
        cases u with
        | some a =>
          exact ⟨"multiple -1 in shape: " ++ toString a ++ " & " ++ toString i, rfl⟩
        | none =>
          obtain ⟨m, hm⟩ := ih ⟨x, hxr, hxlt⟩ (i + 1) (some i)
          exact ⟨m, hm⟩
      · obtain ⟨m, hm⟩ := ih ⟨x, hxr, hxlt⟩ (i + 1) u
        refine ⟨m, ?_⟩
        simp only [reshape_scan_aux]
        rw [if_neg (by omega)]
        exact hm

/-- Claim C9: `_reshape_cpp`'s wildcard scan rejects a shape list with two
`-1` entries with a `py::value_error` naming the first two `-1` positions;
with exactly one `-1` entry (all entries at least `-1`) the scan succeeds,
recording the `-1` position as the axis `Reshape::make` infers; and any
entry below `-1` is rejected with a `py::value_error`. -/
theorem claim_C9 (l : List Int) :
    ((∀ d ∈ l, -1 ≤ d) → ∀ p q, firstNegOne l = some p →
      firstNegOne (l.drop (p + 1)) = some q →
      reshape_scan l = .error (.valueError ("multiple -1 in shape: " ++ toString p ++ " & "
        ++ toString (p + 1 + q)))) ∧
    ((∀ d ∈ l, -1 ≤ d) → l.count (-1) = 1 →
      ∃ p, firstNegOne l = some p ∧ reshape_scan l = .ok (some p)) ∧
    ((∃ d ∈ l, d < -1) → ∃ m, reshape_scan l = .error (.valueError m)) := by
  refine ⟨?_, ?_, ?_⟩
  · intro h p q hp hq
    have hres := reshape_aux_multi l 0 p q h hp hq
    rw [show (0 : Nat) + p = p from by omega] at hres
    exact hres
  · intro h hc
    obtain ⟨p, hp1, hp2⟩ := reshape_aux_single l 0 h hc
    rw [show (0 : Nat) + p = p from by omega] at hp2
    exact ⟨p, hp1, hp2⟩
  · intro h
    exact reshape_aux_bad l h 0 none

/-- Witness for C9: two `-1` entries at positions 1 and 3 are rejected naming
both; the shape `(2,3,-1)` is accepted with inferred axis 2. -/
theorem claim_C9_witness :
    reshape_scan [2, -1, 3, -1] = .error (.valueError "multiple -1 in shape: 1 & 3") ∧
    reshape_scan [2, 3, -1] = .ok (some 2) := by
  constructor
  · exact (claim_C9 [2, -1, 3, -1]).1 (by decide) 1 1 rfl rfl
  · obtain ⟨p, hp1, hp2⟩ := (claim_C9 [2, 3, -1]).2.1 (by decide) (by decide)
    have hp : p = 2 := by
      have h2 : firstNegOne [2, 3, -1] = some 2 := rfl
      rw [h2] at hp1
      injection hp1 with h3
      exact h3.symm
    rw [hp] at hp2
    exact hp2

theorem first_mismatch_go_none (cs ms : List Nat) (off td : Nat) :
    ∀ (fuel j0 : Nat), (∀ j, j0 ≤ j → j < ms.length → cs.getD (td + j - off) 0 = ms.getD j 0) →
    first_mismatch_go cs ms off td j0 fuel = none := by
  intro fuel
  induction fuel with
  | zero => intro j0 h; rfl
  | succ n ih =>
    intro j0 h
    simp only [first_mismatch_go]
    by_cases hj : j0 < ms.length
    · rw [if_pos hj, if_neg (not_not_intro (h j0 le_rfl hj))]
      exact ih (j0 + 1) (fun j hj1 hj2 => h j (by omega) hj2)
    · rw [if_neg hj]

theorem first_mismatch_go_some (cs ms : List Nat) (off td : Nat) :
    ∀ (fuel j0 j : Nat), j0 ≤ j → j < ms.length →
    cs.getD (td + j - off) 0 ≠ ms.getD j 0 →
    (∀ i2, j0 ≤ i2 → i2 < j → cs.getD (td + i2 - off) 0 = ms.getD i2 0) →
    j + 1 - j0 ≤ fuel →
    first_mismatch_go cs ms off td j0 fuel = some j := by
  intro fuel
  induction fuel with
  | zero =>
    intro j0 j h1 h2 h3 h4 h5
    omega
  | succ n ih =>
    intro j0 j h1 h2 h3 h4 h5
    simp only [first_mismatch_go]
    rw [if_pos (by omega)]
    by_cases hj : j0 = j
    · subst hj
      rw [if_pos h3]
    · rw [if_neg (not_not_intro (h4 j0 le_rfl (by omega)))]
      exact ih (j0 + 1) j (by omega) h2 h3 (fun i2 hi1 hi2 => h4 i2 (by omega) hi2) (by omega)

/-- Claim C4: for a boolean mask entry of rank above 1, `_expand_bool_dim`
compares the tensor's consecutive axes against the mask's shape dimension by
dimension; the first mismatching dimension `j` raises the `py::index_error`
naming dimension `tdim + j` and both sizes; when every dimension matches, no
error is raised at this entry, the mask is flattened to the rank-1 shape
`[product of its dimensions]`, and processing continues on the spliced tensor
shape. -/
theorem claim_C4 (cs : List Nat) (i off td : Nat) (ms : List Nat) (rest : List PyIdx)
    (hnd : 1 < ms.length) :
    (∀ j, j < ms.length → cs.getD (td + j - off) 0 ≠ ms.getD j 0 →
      (∀ i2, i2 < j → cs.getD (td + i2 - off) 0 = ms.getD i2 0) →
      expand_bool_aux cs i off td (PyIdx.boolMask ms :: rest) =
        .error (.indexError (bool_mismatch_msg (td + j) (cs.getD (td + j - off) 0)
          (ms.getD j 0)))) ∧
    ((∀ j, j < ms.length → cs.getD (td + j - off) 0 = ms.getD j 0) →
      expand_bool_aux cs i off td (PyIdx.boolMask ms :: rest) =
        Except.map (fun p => (p.1, PyIdx.boolMask [ms.foldl (· * ·) 1] :: p.2))
          (expand_bool_aux (cs.take i ++ ms.foldl (· * ·) 1 :: cs.drop (td + ms.length - off))
            (i + 1) (off + 1) (td + ms.length) rest)) := by
  constructor
  · intro j hj hne hfirst
    have hfm : first_mismatch cs ms off td 0 = some j :=
      first_mismatch_go_some cs ms off td (ms.length - 0) 0 j (by omega) hj hne
        (fun i2 _ hi2 => hfirst i2 hi2) (by omega)
    simp only [expand_bool_aux]
    rw [if_pos hnd, hfm]
  · intro hall
    have hfm : first_mismatch cs ms off td 0 = none :=
      first_mismatch_go_none cs ms off td (ms.length - 0) 0 (fun j _ hj2 => hall j hj2)
    simp only [expand_bool_aux]
    rw [if_pos hnd, hfm]
    cases hrec : expand_bool_aux (cs.take i ++ ms.foldl (· * ·) 1 :: cs.drop (td + ms.length - off))
        (i + 1) (off + 1) (td + ms.length) rest with
    | error e =>
      simp only [hrec]
      rfl
    | ok pr =>
      obtain ⟨fs, out⟩ := pr
      simp only [hrec]
      rfl

/-- Witness for C4: a mask of shape `(3,5)` on a tensor of shape `(3,4,5)`
fails citing dimension 1, expected 4, got 5 — matching the error message of
the source verbatim. -/
theorem claim_C4_witness :
    expand_bool_aux [3, 4, 5] 0 0 0 [PyIdx.boolMask [3, 5]] =
      .error (.indexError (bool_mismatch_msg 1 4 5)) ∧
    bool_mismatch_msg 1 4 5 =
      "boolean index did not match tensor along dimension 1; dimension is 4 but corresponding boolean dimension is 5" := by
  constructor
  · exact (claim_C4 [3, 4, 5] 0 0 0 [3, 5] [] (by decide)).1 1 (by decide) (by decide) (by decide)
  · rfl

end MegIdx
